import Mathlib

/-!
Shallow embedding of `util/clustergen/cluster.py` (snitch cluster generator).

Conventions of the embedding:
* Python strings are `String` / `List Char`; a function that can raise
  returns `Option` (`none` = exception).
* Python ints are `Nat` where the source only ever holds non-negative
  values (widths, sizes, counts); the derived icache tag width uses `Int`
  because the source expression `addr_width - clog2 (..) - clog2 (..) + 3`
  can go negative.
* Python dicts that are used in insertion order are association lists;
  the `self.mems` Python `set` is a duplicate-free `List` (membership is
  what the claims are about; the source's iteration order over the set is
  unspecified).
-/

/-- Association-list lookup, the semantics of `d[k]` / `k in d` for the
Python dicts modelled below (first matching key wins; reachable states
never hold duplicate keys). -/
def alookup {α β : Type} [DecidableEq α] : List (α × β) → α → Option β
  | [], _ => none
  | kv :: l, k => if kv.1 = k then some kv.2 else alookup l k

/-! ### `clog2` and `is_pow2` (source lines 361-367) -/

/-- Fuel-driven computation of the ceiling base-2 logarithm; `fuel = x`
always suffices.  Structural recursion keeps it kernel-reducible. -/
def clog2Fuel : Nat → Nat → Nat
  | 0, _ => 0
  | fuel + 1, x => if x ≤ 1 then 0 else clog2Fuel fuel ((x + 1) / 2) + 1

/-- `clog2(x) = int(ceil(log2(x)))` of the source.  (The source computes it
through floating point, which is exact on the argument ranges the
generator feeds it; `math.log2(0)` would raise, and the one call site that
could receive `0` is modelled explicitly as a crash in `cfg_validate`.) -/
def clog2 (x : Nat) : Nat := clog2Fuel x x

/-- `is_pow2(x) = 2**clog2(x) != x` — despite its name the source function
returns `True` exactly when `x` is NOT a power of two; its call sites in
`cfg_validate` rely on that inversion. -/
def is_pow2 (x : Nat) : Bool := 2 ^ clog2 x != x

/-! ### `RiscvISA` and `parse_isa_string` (source lines 87-112) -/

/-- The `RiscvISA` dataclass.  The extra `pipe` field models the attribute
literally named `'|'` that `setattr` creates dynamically when the parsed
extension group contains a bar (see `extChar`); the dataclass itself only
declares `i e m a f d`. -/
structure RiscvISA where
  i : Bool
  e : Bool
  m : Bool
  a : Bool
  f : Bool
  d : Bool
  pipe : Bool
deriving DecidableEq

def RiscvISA.none : RiscvISA := ⟨false, false, false, false, false, false, false⟩

/-- Characters accepted by the regex character class `[m|a|f|d]`: inside a
class the bar is a literal, so `'|'` is a member. -/
def extChar (c : Char) : Bool := c = 'm' || c = '|' || c = 'a' || c = 'f' || c = 'd'

/-- Matching of `([m|a|f|d]*)$` against the remainder of the string: the
class chars are consumed greedily and Python's `$` (non-MULTILINE) matches
at the end of the string or just before one final newline.  Returns the
matched group. -/
def matchExt (rest : List Char) : Option (List Char) :=
  match rest.dropWhile extChar with
  | [] => some (rest.takeWhile extChar)
  | ['\n'] => some (rest.takeWhile extChar)
  | _ => Option.none

/-- `setattr(isa, c, True)` for the characters the regex can produce. -/
def setAttr (isa : RiscvISA) (c : Char) : RiscvISA :=
  if c = 'i' then { isa with i := true }
  else if c = 'e' then { isa with e := true }
  else if c = 'm' then { isa with m := true }
  else if c = 'a' then { isa with a := true }
  else if c = 'f' then { isa with f := true }
  else if c = 'd' then { isa with d := true }
  else if c = '|' then { isa with pipe := true }
  else isa

/-- `parse_isa_string` (source lines 100-112).  NOTE: the source executes
`s.lower()` but discards the result (Python strings are immutable), so the
regex `^rv32(i|e)([m|a|f|d]*)$` is matched against the ORIGINAL string;
`none` models the `ValueError("Illegal ISA string.")`. -/
def parse_isa_string (s : List Char) : Option RiscvISA :=
  match s with
  | 'r' :: 'v' :: '3' :: '2' :: b :: rest =>
    if b = 'i' ∨ b = 'e' then
      match matchExt rest with
      | some ext => some (ext.foldl setAttr (setAttr RiscvISA.none b))
      | Option.none => Option.none
    else Option.none
  | _ => Option.none

/-! ### PMA (source lines 115-131, 244-250) -/

inductive PMA where
  | ATOMIC
  | CACHED
  | EXECUTE
  | NON_IDEMPOTENT
deriving DecidableEq

/-- `PMACfg.add_region`: appends the tuple `(pma, base, mask)`. -/
def add_region (regions : List (PMA × Nat × Nat)) (pma : PMA) (base mask : Nat) :
    List (PMA × Nat × Nat) :=
  regions ++ [(pma, base, mask)]

/-- `SnitchCluster.parse_pma_cfg`: collects `(base, mask)` of the regions
tagged `CACHED`, in declaration order, into `cfg['pmas']['cached']`. -/
def parse_pma_cfg (regions : List (PMA × Nat × Nat)) : List (Nat × Nat) :=
  regions.foldl
    (fun acc pma => if pma.1 = PMA.CACHED then acc ++ [(pma.2.1, pma.2.2)] else acc) []

/-! ### Configuration records -/

structure ICacheCfg where
  size : Nat       -- KiB
  sets : Nat
  cacheline : Nat  -- bits
  depth : Nat      -- derived by `calc_cache_sizes` (0 before derivation)
deriving DecidableEq

structure HiveCfg where
  icache : ICacheCfg
deriving DecidableEq

structure TcdmCfg where
  size : Nat   -- KiB
  banks : Nat
  depth : Nat  -- derived by `calc_cache_sizes` (0 before derivation)
deriving DecidableEq

/-- The fields of `self.cfg` that the modelled code paths read or write. -/
structure ClusterCfg where
  addr_width : Nat
  data_width : Nat
  dma_data_width : Nat
  tcdm : TcdmCfg
  hives : List HiveCfg
  tie_ports : Bool
deriving DecidableEq

/-! ### `cfg_validate` (source lines 270-306) -/

/-- `x` is a power of two (the property the sanity rules are about). -/
def pow2 (x : Nat) : Prop := ∃ k, x = 2 ^ k

/-- The eight sanity rules of the specification, as predicates on the
configuration. -/
def sanity_rules (c : ClusterCfg) : Prop :=
  30 ≤ c.addr_width ∧ (c.data_width = 32 ∨ c.data_width = 64) ∧
  0 < c.dma_data_width ∧ c.dma_data_width % c.data_width = 0 ∧
  pow2 c.dma_data_width ∧ c.tcdm.size % c.tcdm.banks = 0 ∧
  pow2 c.tcdm.size ∧ pow2 c.tcdm.banks

/-- `SnitchCluster.cfg_validate`, an `if/elif` chain returning `failed`.
`some true` = a rule fired (`failed` stays `True`), `some false` = all
checks passed, `none` = the source raises before producing a verdict
(`size % banks` with `banks = 0` raises `ZeroDivisionError`; `is_pow2`
on `0` raises a `math` domain error inside `log2`).  The non-fatal
`log.warn` for `dma_data_width != 512` does not influence the result. -/
def cfg_validate (c : ClusterCfg) : Option Bool :=
  if c.addr_width < 30 then some true
  else if ¬(c.data_width = 32 ∨ c.data_width = 64) then some true
  else if c.dma_data_width ≤ 0 then some true
  else if c.dma_data_width % c.data_width ≠ 0 then some true
  else if is_pow2 c.dma_data_width then some true
  else if c.tcdm.banks = 0 then none
  else if c.tcdm.size % c.tcdm.banks ≠ 0 then some true
  else if c.tcdm.size = 0 then none
  else if is_pow2 c.tcdm.size then some true
  else if is_pow2 c.tcdm.banks then some true
  else some false

/-! ### `calc_cache_sizes` (source lines 229-242) -/

/-- One iteration of the icache loop body, depth part:
`depth = size * 1024 // sets // (cacheline // 8)`. -/
def update_hive (h : HiveCfg) : HiveCfg :=
  let cl_bytes := h.icache.cacheline / 8
  { h with icache :=
    { h.icache with depth := h.icache.size * 1024 / h.icache.sets / cl_bytes } }

/-- The tag width the loop body computes from a hive whose `depth` has just
been derived:
`addr_width - clog2(cacheline // 8) - clog2(depth) + 3` (Python int
arithmetic, hence `Int`). -/
def derived_tag_width (aw : Nat) (h : HiveCfg) : Int :=
  (aw : Int) - (clog2 (h.icache.cacheline / 8) : Int) - (clog2 h.icache.depth : Int) + 3

/-- The icache loop of `calc_cache_sizes`: the accumulator carries the
updated hive list and the current value of the `self.tag_width` attribute
(reassigned on every iteration). -/
def calc_hives_loop (aw : Nat) (hives : List HiveCfg)
    (acc : List HiveCfg × Option Int) : List HiveCfg × Option Int :=
  hives.foldl
    (fun acc h =>
      let h' := update_hive h
      (acc.1 ++ [h'], some (derived_tag_width aw h')))
    acc

/-- `SnitchCluster.calc_cache_sizes`.  Returns the updated configuration
together with the final value of the `self.tag_width` attribute: the loop
reassigns `self.tag_width` on EVERY iteration, so only the value computed
from the last hive survives; with zero hives the attribute is never
created (`none`). -/
def calc_cache_sizes (c : ClusterCfg) : ClusterCfg × Option Int :=
  let tcdm_bytes := c.data_width / 8
  let c' := { c with tcdm :=
    { c.tcdm with depth := c.tcdm.size * 1024 / (c.tcdm.banks * tcdm_bytes) } }
  let r := calc_hives_loop c'.addr_width c'.hives
    (([] : List HiveCfg), (Option.none : Option Int))
  ({ c' with hives := r.1 }, r.2)

/-! ### `add_mem` / `memory_cfg` (source lines 174-227) -/

/-- The canonical 8-tuple `mem` built inside `add_mem`. -/
structure MemKey where
  width : Int
  words : Nat
  byte_width : Nat
  ports : Nat
  latency : Nat
  byte_enable : Bool
  speed_optimized : Bool
  density_optimized : Bool
deriving DecidableEq

/-- `self.mems` (a Python set; modelled as a duplicate-free list) together
with `self.mems_desc` (a dict keyed by the same tuple; description lists
may contain `None`, which only the FIRST insertion replaces by `""` via
`desc or ""`). -/
structure MemState where
  mems : List MemKey
  mems_desc : List (MemKey × List (Option String))
deriving DecidableEq

def MemState.empty : MemState := ⟨[], []⟩

/-- `SnitchCluster.add_mem`.  `byte_width`, `ports` and `latency` are the
literal constants `8`, `1`, `1` of the source tuple. -/
def SnitchCluster.add_mem (st : MemState) (words : Nat) (width : Int) (byte_enable : Bool)
    (desc : Option String) (speed_optimized density_optimized : Bool) : MemState :=
  let mem : MemKey := ⟨width, words, 8, 1, 1, byte_enable, speed_optimized, density_optimized⟩
  let mems := if mem ∈ st.mems then st.mems else st.mems ++ [mem]
  let mems_desc :=
    match alookup st.mems_desc mem with
    | some _ => st.mems_desc.map
        (fun kv => if kv.1 = mem then (kv.1, kv.2 ++ [desc]) else kv)
    | Option.none => st.mems_desc ++ [(mem, [some (desc.getD "")])]
  ⟨mems, mems_desc⟩

/-- One `add_mem` invocation with its actual arguments (used to quantify
over arbitrary call sequences). -/
structure AddMemCall where
  words : Nat
  width : Int
  byte_enable : Bool
  desc : Option String
  speed_optimized : Bool
  density_optimized : Bool

def run_add_mem_calls (calls : List AddMemCall) : MemState :=
  calls.foldl
    (fun st a => SnitchCluster.add_mem st a.words a.width a.byte_enable a.desc a.speed_optimized
      a.density_optimized)
    MemState.empty

/-- The icache part of `memory_cfg`: per hive `i`, one data descriptor
(width = cacheline, no byte enable) and one tag descriptor whose width is
the single `self.tag_width` attribute (`tagw`), annotated with the hive
index. -/
def icache_adds (tagw : Int) : Nat → List HiveCfg → MemState → MemState
  | _, [], st => st
  | idx, h :: hs, st =>
    let st1 := SnitchCluster.add_mem st h.icache.depth (h.icache.cacheline : Int) false
      (some ("icache data (hive " ++ toString idx ++ ")")) true false
    let st2 := SnitchCluster.add_mem st1 h.icache.depth tagw false
      (some ("icache tag (hive " ++ toString idx ++ ")")) true false
    icache_adds tagw (idx + 1) hs st2

/-- The memory state `memory_cfg` builds for a cluster, run after
`calc_cache_sizes` as in `SnitchCluster.__init__`: first the TCDM
descriptor, then the per-hive icache descriptors.  When `hives = []` the
source never reads `self.tag_width`, so the `getD 0` dummy is unused. -/
def cluster_memories (c : ClusterCfg) : MemState :=
  let r := calc_cache_sizes c
  let st := SnitchCluster.add_mem MemState.empty r.1.tcdm.depth (r.1.data_width : Int) true
    (some "tcdm") true false
  icache_adds (r.2.getD 0) 0 r.1.hives st

/-! ### `SnitchClusterTB.__init__` (source lines 316-330) -/

structure TBCfg where
  dram_address : Nat
  dram_length : Nat
  cluster : ClusterCfg

/-- The composition step of `SnitchClusterTB.__init__` after schema
validation: build a fresh `PMACfg`, add one CACHED region covering DRAM,
force `tie_ports`, and return the pair handed to `SnitchCluster`. -/
def snitch_cluster_tb_init (cfg : TBCfg) : List (PMA × Nat × Nat) × ClusterCfg :=
  let pma_cfg : List (PMA × Nat × Nat) := []
  let pma_cfg := add_region pma_cfg PMA.CACHED cfg.dram_address cfg.dram_length
  let cluster := { cfg.cluster with tie_ports := true }
  (pma_cfg, cluster)

/-! ### `extend_with_default` (source lines 19-41) -/

/-- `dict.setdefault(k, v)`: inserts `(k, v)` at the end iff `k` is absent. -/
def setdefault {V : Type} (inst : List (String × V)) (k : String) (v : V) :
    List (String × V) :=
  if (alookup inst k).isSome then inst else inst ++ [(k, v)]

/-- The `set_defaults` loop of `extend_with_default`: for every schema
property carrying a default, `instance.setdefault(property, default)`, in
schema order.  (The recursive application of this step at each nesting
level is performed by the external `jsonschema` library that the extended
validator class plugs into.) -/
def set_defaults {V : Type} (props : List (String × Option V))
    (inst : List (String × V)) : List (String × V) :=
  props.foldl
    (fun acc p =>
      match p.2 with
      | some dflt => setdefault acc p.1 dflt
      | Option.none => acc)
    inst

/-! ### Concrete configurations used by counterexamples and witnesses -/

/-- Two hives with different icache geometry (hive 0: 128-bit lines, 2
sets; hive 1: 256-bit lines, 1 set); both derive `depth = 256`, but their
tag widths differ (39 vs 38 at `addr_width = 48`). -/
def cfgTwoHives : ClusterCfg :=
  ⟨48, 64, 512, ⟨128, 8, 0⟩, [⟨⟨8, 2, 128, 0⟩⟩, ⟨⟨8, 1, 256, 0⟩⟩], false⟩

/-- A single-hive configuration satisfying all eight sanity rules. -/
def cfgValid : ClusterCfg :=
  ⟨48, 64, 512, ⟨128, 8, 0⟩, [⟨⟨8, 2, 128, 0⟩⟩], false⟩

/-! ## Helper lemmas -/

theorem clog2Fuel_eq_clog (fuel x : Nat) (hx : x ≤ fuel + 1) :
    clog2Fuel fuel x = Nat.clog 2 x := by
  induction fuel generalizing x with
  | zero =>
    have h1 : x ≤ 1 := hx
    simp [clog2Fuel, Nat.clog_of_right_le_one h1]
  | succ fuel ih =>
    by_cases h1 : x ≤ 1
    · simp [clog2Fuel, h1, Nat.clog_of_right_le_one h1]
    · have h2 : 2 ≤ x := by omega
      have hrec : (x + 1) / 2 ≤ fuel + 1 := by omega
      have hstep : Nat.clog 2 x = Nat.clog 2 ((x + 2 - 1) / 2) + 1 :=
        Nat.clog_of_two_le (by norm_num) h2
      have hx21 : x + 2 - 1 = x + 1 := by omega
      rw [hx21] at hstep
      simp only [clog2Fuel, if_neg h1, ih _ hrec, hstep]

theorem clog2_eq_clog (x : Nat) : clog2 x = Nat.clog 2 x :=
  clog2Fuel_eq_clog x x (Nat.le_succ x)

theorem is_pow2_eq_false_iff (x : Nat) : is_pow2 x = false ↔ pow2 x := by
  unfold is_pow2 pow2
  rw [bne_eq_false_iff_eq]
  constructor
  · intro h
    exact ⟨clog2 x, h.symm⟩
  · rintro ⟨k, rfl⟩
    rw [clog2_eq_clog, Nat.clog_pow 2 k (by norm_num)]

theorem pow2_pos {x : Nat} (h : pow2 x) : 0 < x := by
  obtain ⟨k, rfl⟩ := h
  exact Nat.pos_pow_of_pos k (by norm_num)

/-! ## Claim theorems -/

/-- Claim C2: the claim "ISA parsing is case-insensitive" fails on the
code: `s.lower()` on line 102 discards its result, so the regex sees the
original string and `"RV32IMAFD"` raises `ValueError` while
`"rv32imafd"` parses to base I with M, A, F, D set.  This theorem
evaluates the embedded parser at the failing input. -/
theorem parse_isa_string_case_sensitive :
    parse_isa_string ("RV32IMAFD".toList) = Option.none ∧
    parse_isa_string ("rv32imafd".toList) =
      some ⟨true, false, true, true, true, true, false⟩ := by
  constructor
  · decide
  · decide

/-- Claim C3: the claim "a string containing a character outside
{m,a,f,d} after the base letter is rejected" fails on the code: the regex
character class `[m|a|f|d]` contains the literal bar, so `"rv32i|"` is
accepted (setting a stray `'|'` attribute and no extension flag), and
Python's `$` also lets `"rv32im\n"` match.  Genuinely foreign characters
such as `'z'` are rejected, and grammar-conforming strings set exactly the
flags present. -/
theorem parse_isa_string_extension_alphabet :
    parse_isa_string ("rv32i|".toList) =
      some ⟨true, false, false, false, false, false, true⟩ ∧
    parse_isa_string ("rv32im".toList ++ ['\n']) =
      some ⟨true, false, true, false, false, false, false⟩ ∧
    parse_isa_string ("rv32iz".toList) = Option.none ∧
    parse_isa_string ("rv32emad".toList) =
      some ⟨false, true, true, true, false, true, false⟩ := by
  refine ⟨by decide, by decide, by decide, by decide⟩

set_option maxHeartbeats 2000000 in
/-- Claim C4: `cfg_validate` reaches the all-checks-passed verdict
(`some false`, i.e. `failed = False`) iff all eight sanity rules hold; on
any violated rule it instead reports failure (`some true`) or — on the
degenerate `banks = 0` / `size = 0` inputs, which themselves violate the
power-of-two rules — raises (`none`), so it never passes a violating
configuration and never rejects a conforming one.  The `dma_data_width !=
512` advisory is a bare `log.warn` after the chain and does not influence
the verdict, as the right-hand side (which allows any power-of-two
multiple of `data_width`) shows. -/
theorem cfg_validate_iff_sanity_rules (c : ClusterCfg) :
    cfg_validate c = some false ↔ sanity_rules c := by
  unfold cfg_validate sanity_rules
  split_ifs with h1 h2 h3 h4 h5 h6 h7 h8 h9 h10
  all_goals (
    first
    | exact iff_of_true rfl ⟨by omega, by tauto, by omega, by omega,
        (is_pow2_eq_false_iff _).mp (by simp_all), by omega,
        (is_pow2_eq_false_iff _).mp (by simp_all),
        (is_pow2_eq_false_iff _).mp (by simp_all)⟩
    | (refine iff_of_false (fun hgl => by cases hgl) ?_
       rintro ⟨r1, r2, r3, r4, r5, r6, r7, r8⟩
       have e5 := (is_pow2_eq_false_iff _).mpr r5
       have e7 := (is_pow2_eq_false_iff _).mpr r7
       have e8 := (is_pow2_eq_false_iff _).mpr r8
       have p5 := pow2_pos r5
       have p7 := pow2_pos r7
       have p8 := pow2_pos r8
       first
       | (simp_all; done)
       | omega))

/-- Claim C6: for every configuration passing `cfg_validate`, the derived
TCDM depth equals `size * 1024 / (banks * (data_width / 8))` under
truncating natural division (the source's `//`). -/
theorem tcdm_depth_formula (c : ClusterCfg) (hv : cfg_validate c = some false) :
    (calc_cache_sizes c).1.tcdm.depth =
      c.tcdm.size * 1024 / (c.tcdm.banks * (c.data_width / 8)) := rfl

/-- Witness for `tcdm_depth_formula`: the validated configuration
`cfgValid` (`size = 128` KiB, `banks = 8`, `data_width = 64`) derives
`depth = 2048`. -/
theorem tcdm_depth_formula_witness :
    cfg_validate cfgValid = some false ∧ (calc_cache_sizes cfgValid).1.tcdm.depth = 2048 :=
  ⟨by decide, (tcdm_depth_formula cfgValid (by decide)).trans (by decide)⟩

theorem parse_pma_cfg_foldl (regions : List (PMA × Nat × Nat)) (acc : List (Nat × Nat)) :
    regions.foldl
      (fun acc pma => if pma.1 = PMA.CACHED then acc ++ [(pma.2.1, pma.2.2)] else acc) acc =
    acc ++ (regions.filter (fun r => decide (r.1 = PMA.CACHED))).map
      (fun r => (r.2.1, r.2.2)) := by
  induction regions generalizing acc with
  | nil => simp
  | cons r rest ih =>
    by_cases h : r.1 = PMA.CACHED
    · simp [List.foldl_cons, h, ih, List.filter_cons]
    · simp [List.foldl_cons, h, ih, List.filter_cons]

/-- Claim C7: the cached partition produced by `parse_pma_cfg` is exactly
the `(base, length)` pairs of the regions tagged `CACHED`, in declaration
order, with every other attribute excluded and no coalescing — in
particular the two adjacent regions `(0x8000_0000, 0x1000)` and
`(0x8000_1000, 0x1000)` stay two distinct entries. -/
theorem parse_pma_cfg_cached_filter (regions : List (PMA × Nat × Nat)) :
    parse_pma_cfg regions =
      (regions.filter (fun r => decide (r.1 = PMA.CACHED))).map (fun r => (r.2.1, r.2.2)) ∧
    parse_pma_cfg
      [(PMA.CACHED, 0x80000000, 0x1000), (PMA.CACHED, 0x80001000, 0x1000)] =
      [(0x80000000, 0x1000), (0x80001000, 0x1000)] := by
  constructor
  · exact parse_pma_cfg_foldl regions []
  · decide

/-- Claim C8: `SnitchClusterTB.__init__` builds a PMA configuration with
exactly one region — CACHED over the declared DRAM base and length — and
sets the embedded cluster's `tie_ports` to `true` before handing both to
the `SnitchCluster` constructor; classifying that single region yields the
one cached pair. -/
theorem snitch_cluster_tb_init_spec (cfg : TBCfg) :
    (snitch_cluster_tb_init cfg).1 = [(PMA.CACHED, cfg.dram_address, cfg.dram_length)] ∧
    (snitch_cluster_tb_init cfg).2.tie_ports = true ∧
    parse_pma_cfg (snitch_cluster_tb_init cfg).1 = [(cfg.dram_address, cfg.dram_length)] :=
  ⟨rfl, rfl, rfl⟩

/-- Claim C5: two `add_mem` calls with the same key tuple but different
description strings produce exactly one `mems` entry and one `mems_desc`
entry for that key, whose description list holds both descriptions in
call order. -/
theorem add_mem_dedup (words : Nat) (width : Int) (be so de : Bool)
    (d1 d2 : String) (hne : d1 ≠ d2) :
    (SnitchCluster.add_mem (SnitchCluster.add_mem MemState.empty words width be (some d1) so de)
        words width be (some d2) so de).mems =
      [⟨width, words, 8, 1, 1, be, so, de⟩] ∧
    (SnitchCluster.add_mem (SnitchCluster.add_mem MemState.empty words width be (some d1) so de)
        words width be (some d2) so de).mems_desc =
      [(⟨width, words, 8, 1, 1, be, so, de⟩, [some d1, some d2])] := by
  have h1 : SnitchCluster.add_mem MemState.empty words width be (some d1) so de =
      ⟨[⟨width, words, 8, 1, 1, be, so, de⟩],
       [(⟨width, words, 8, 1, 1, be, so, de⟩, [some d1])]⟩ := by
    simp [SnitchCluster.add_mem, MemState.empty, alookup]
  rw [h1]
  constructor
  · simp [SnitchCluster.add_mem, alookup]
  · simp [SnitchCluster.add_mem, alookup]

/-- Witness for `add_mem_dedup` at a concrete key and two concrete
descriptions. -/
theorem add_mem_dedup_witness :
    ("tcdm" : String) ≠ "other" ∧
    (SnitchCluster.add_mem
        (SnitchCluster.add_mem MemState.empty 2048 64 true (some "tcdm") true false)
        2048 64 true (some "other") true false).mems =
      [⟨64, 2048, 8, 1, 1, true, true, false⟩] ∧
    (SnitchCluster.add_mem
        (SnitchCluster.add_mem MemState.empty 2048 64 true (some "tcdm") true false)
        2048 64 true (some "other") true false).mems_desc =
      [(⟨64, 2048, 8, 1, 1, true, true, false⟩, [some "tcdm", some "other"])] :=
  ⟨by decide, (add_mem_dedup 2048 64 true true false "tcdm" "other" (by decide)).1,
    (add_mem_dedup 2048 64 true true false "tcdm" "other" (by decide)).2⟩

theorem mem_invariant_step (st : MemState)
    (hm : ∀ k ∈ st.mems, k.byte_width = 8 ∧ k.ports = 1 ∧ k.latency = 1)
    (hd : ∀ kv ∈ st.mems_desc, kv.1.byte_width = 8 ∧ kv.1.ports = 1 ∧ kv.1.latency = 1)
    (words : Nat) (width : Int) (be : Bool) (d : Option String) (so de : Bool) :
    (∀ k ∈ (SnitchCluster.add_mem st words width be d so de).mems,
      k.byte_width = 8 ∧ k.ports = 1 ∧ k.latency = 1) ∧
    (∀ kv ∈ (SnitchCluster.add_mem st words width be d so de).mems_desc,
      kv.1.byte_width = 8 ∧ kv.1.ports = 1 ∧ kv.1.latency = 1) := by
  unfold SnitchCluster.add_mem
  constructor
  · intro k hk
    by_cases hmem : (⟨width, words, 8, 1, 1, be, so, de⟩ : MemKey) ∈ st.mems
    · simp only [if_pos hmem] at hk
      exact hm k hk
    · simp only [if_neg hmem, List.mem_append, List.mem_singleton] at hk
      rcases hk with hk | hk
      · exact hm k hk
      · subst hk; exact ⟨rfl, rfl, rfl⟩
  · intro kv hkv
    rcases halo : alookup st.mems_desc ⟨width, words, 8, 1, 1, be, so, de⟩ with _ | ds
    · simp only [halo, List.mem_append, List.mem_singleton] at hkv
      rcases hkv with hkv | hkv
      · exact hd kv hkv
      · subst hkv; exact ⟨rfl, rfl, rfl⟩
    · simp only [halo, List.mem_map] at hkv
      obtain ⟨kv0, hkv0, hmap⟩ := hkv
      by_cases heq : kv0.1 = ⟨width, words, 8, 1, 1, be, so, de⟩
      · rw [if_pos heq] at hmap
        have := hd kv0 hkv0
        rw [← hmap]
        exact this
      · rw [if_neg heq] at hmap
        subst hmap
        exact hd kv0 hkv0

theorem mem_invariant_fold (calls : List AddMemCall) : ∀ (st : MemState),
    (∀ k ∈ st.mems, k.byte_width = 8 ∧ k.ports = 1 ∧ k.latency = 1) →
    (∀ kv ∈ st.mems_desc, kv.1.byte_width = 8 ∧ kv.1.ports = 1 ∧ kv.1.latency = 1) →
    (∀ k ∈ (calls.foldl
        (fun st a => SnitchCluster.add_mem st a.words a.width a.byte_enable a.desc
          a.speed_optimized a.density_optimized) st).mems,
      k.byte_width = 8 ∧ k.ports = 1 ∧ k.latency = 1) ∧
    (∀ kv ∈ (calls.foldl
        (fun st a => SnitchCluster.add_mem st a.words a.width a.byte_enable a.desc
          a.speed_optimized a.density_optimized) st).mems_desc,
      kv.1.byte_width = 8 ∧ kv.1.ports = 1 ∧ kv.1.latency = 1) := by
  induction calls with
  | nil => intro st hm hd; exact ⟨hm, hd⟩
  | cons a rest ih =>
    intro st hm hd
    have step := mem_invariant_step st hm hd a.words a.width a.byte_enable a.desc
      a.speed_optimized a.density_optimized
    exact ih _ step.1 step.2

/-- Claim C10: whatever sequence of `add_mem` calls is issued, every key
in the memory set and every key of the description map carries the fixed
constants `byte_width = 8`, `ports = 1`, `latency = 1` hard-coded in the
`add_mem` tuple, so every entry of the emitted manifest reports exactly
those values. -/
theorem add_mem_constant_fields (calls : List AddMemCall) :
    (∀ k ∈ (run_add_mem_calls calls).mems,
      k.byte_width = 8 ∧ k.ports = 1 ∧ k.latency = 1) ∧
    (∀ kv ∈ (run_add_mem_calls calls).mems_desc,
      kv.1.byte_width = 8 ∧ kv.1.ports = 1 ∧ kv.1.latency = 1) :=
  mem_invariant_fold calls MemState.empty
    (fun k hk => absurd hk (List.not_mem_nil k))
    (fun kv hkv => absurd hkv (List.not_mem_nil kv))

/-- Witness for `add_mem_constant_fields` at a concrete call list and
member. -/
theorem add_mem_constant_fields_witness :
    (⟨64, 2048, 8, 1, 1, true, true, false⟩ : MemKey) ∈
      (run_add_mem_calls [⟨2048, 64, true, some "tcdm", true, false⟩]).mems ∧
    ((⟨64, 2048, 8, 1, 1, true, true, false⟩ : MemKey).byte_width = 8 ∧
     (⟨64, 2048, 8, 1, 1, true, true, false⟩ : MemKey).ports = 1 ∧
     (⟨64, 2048, 8, 1, 1, true, true, false⟩ : MemKey).latency = 1) :=
  ⟨by decide,
    (add_mem_constant_fields [⟨2048, 64, true, some "tcdm", true, false⟩]).1
      ⟨64, 2048, 8, 1, 1, true, true, false⟩ (by decide)⟩

theorem alookup_append_isSome {V : Type} (l l' : List (String × V)) (k : String)
    (h : (alookup l k).isSome) : (alookup (l ++ l') k).isSome := by
  induction l with
  | nil => simp [alookup] at h
  | cons kv rest ih =>
    by_cases hk : kv.1 = k
    · simp [alookup, hk]
    · simp only [alookup, if_neg hk] at h ⊢
      exact ih h

theorem setdefault_isSome {V : Type} (inst : List (String × V)) (k k' : String) (v : V)
    (h : (alookup inst k).isSome) : (alookup (setdefault inst k' v) k).isSome := by
  unfold setdefault
  by_cases hs : (alookup inst k').isSome
  · rw [if_pos hs]; exact h
  · rw [if_neg hs]; exact alookup_append_isSome inst _ k h

theorem setdefault_self_isSome {V : Type} (inst : List (String × V)) (k : String) (v : V) :
    (alookup (setdefault inst k v) k).isSome := by
  unfold setdefault
  by_cases hs : (alookup inst k).isSome
  · rw [if_pos hs]; exact hs
  · rw [if_neg hs]
    induction inst with
    | nil => simp [alookup]
    | cons kv rest ih =>
      by_cases hk : kv.1 = k
      · simp [alookup, hk]
      · simp only [alookup, if_neg hk] at hs ⊢
        exact ih hs

theorem set_defaults_isSome {V : Type} (props : List (String × Option V)) :
    ∀ (inst : List (String × V)) (k : String),
    (alookup inst k).isSome → (alookup (set_defaults props inst) k).isSome := by
  induction props with
  | nil => intro inst k h; exact h
  | cons p rest ih =>
    intro inst k h
    rcases p with ⟨pk, _ | dflt⟩
    · exact ih inst k h
    · exact ih _ k (setdefault_isSome inst k pk dflt h)

theorem set_defaults_mem_isSome {V : Type} (props : List (String × Option V)) :
    ∀ (inst : List (String × V)) (k : String) (d : V), (k, some d) ∈ props →
    (alookup (set_defaults props inst) k).isSome := by
  induction props with
  | nil => intro inst k d h; exact absurd h (List.not_mem_nil _)
  | cons p rest ih =>
    intro inst k d h
    rcases List.mem_cons.mp h with heq | hrest
    · subst heq
      exact set_defaults_isSome rest _ k (setdefault_self_isSome inst k d)
    · rcases p with ⟨pk, _ | dflt⟩
      · exact ih inst k d hrest
      · exact ih _ k d hrest

theorem set_defaults_of_all_present {V : Type} (props : List (String × Option V)) :
    ∀ (inst : List (String × V)),
    (∀ k d, (k, some d) ∈ props → (alookup inst k).isSome = true) →
    set_defaults props inst = inst := by
  induction props with
  | nil => intro inst _; rfl
  | cons p rest ih =>
    intro inst hall
    rcases p with ⟨pk, _ | dflt⟩
    · exact ih inst (fun k d hm => hall k d (List.mem_cons_of_mem _ hm))
    · have hpk : (alookup inst pk).isSome = true :=
        hall pk dflt (List.mem_cons_self _ rest)
      have hsd : setdefault inst pk dflt = inst := by
        unfold setdefault; rw [if_pos hpk]
      show set_defaults rest (setdefault inst pk dflt) = inst
      rw [hsd]
      exact ih inst (fun k d hm => hall k d (List.mem_cons_of_mem _ hm))

/-- Claim C9: the default-filling pass is idempotent: a document that
already carries every schema property that declares a default is left
unchanged by `set_defaults`, and — equivalently — applying `set_defaults`
twice equals applying it once (after one pass every defaulted property is
present). -/
theorem set_defaults_idempotent {V : Type} (props : List (String × Option V))
    (inst : List (String × V)) :
    ((∀ k d, (k, some d) ∈ props → (alookup inst k).isSome = true) →
      set_defaults props inst = inst) ∧
    set_defaults props (set_defaults props inst) = set_defaults props inst :=
  ⟨set_defaults_of_all_present props inst,
   set_defaults_of_all_present props (set_defaults props inst)
     (fun k d hm => set_defaults_mem_isSome props inst k d hm)⟩

/-- Witness for `set_defaults_idempotent`: a two-property schema (one
default, one without) on a document already carrying the defaulted
property. -/
theorem set_defaults_idempotent_witness :
    set_defaults [("banks", some 32), ("name", Option.none)] [("banks", (8 : Nat))] =
      [("banks", 8)] ∧
    set_defaults [("banks", some 32), ("name", Option.none)]
        (set_defaults [("banks", some 32), ("name", Option.none)] [("banks", (8 : Nat))]) =
      set_defaults [("banks", some 32), ("name", Option.none)] [("banks", (8 : Nat))] := by
  have h := set_defaults_idempotent [("banks", some 32), ("name", Option.none)]
    [("banks", (8 : Nat))]
  refine ⟨h.1 ?_, h.2⟩
  intro k d hm
  simp only [List.mem_cons, List.not_mem_nil, or_false, Prod.mk.injEq] at hm
  rcases hm with ⟨hk, hd⟩ | ⟨hk, hd⟩
  · subst hk; decide
  · exact absurd hd (by simp)

theorem exists_getLast?_cons {α : Type} (a : α) (l : List α) :
    ∃ g, (a :: l).getLast? = some g := by
  induction l generalizing a with
  | nil => exact ⟨a, rfl⟩
  | cons b l ih =>
    obtain ⟨g, hg⟩ := ih b
    exact ⟨g, by rw [List.getLast?_cons_cons]; exact hg⟩

theorem calc_hives_loop_eq (aw : Nat) (l : List HiveCfg) :
    ∀ (acc : List HiveCfg) (t : Option Int),
    calc_hives_loop aw l (acc, t) =
      (acc ++ l.map update_hive,
       (((l.map update_hive).getLast?).map (derived_tag_width aw)).or t) := by
  induction l with
  | nil => intro acc t; simp [calc_hives_loop, Option.or]
  | cons h l ih =>
    intro acc t
    have hstep : calc_hives_loop aw (h :: l) (acc, t) =
        calc_hives_loop aw l (acc ++ [update_hive h],
          some (derived_tag_width aw (update_hive h))) := rfl
    rw [hstep, ih]
    cases l with
    | nil => simp [Option.or]
    | cons h2 l2 =>
      obtain ⟨g, hg⟩ := exists_getLast?_cons (update_hive h2) (l2.map update_hive)
      simp [List.getLast?_cons_cons, hg, Option.or]

theorem calc_cache_sizes_spec (c : ClusterCfg) :
    (calc_cache_sizes c).1.hives = c.hives.map update_hive ∧
    (calc_cache_sizes c).1.addr_width = c.addr_width ∧
    (calc_cache_sizes c).2 =
      ((c.hives.map update_hive).getLast?).map (derived_tag_width c.addr_width) := by
  unfold calc_cache_sizes
  dsimp only
  rw [calc_hives_loop_eq]
  refine ⟨by simp, rfl, ?_⟩
  dsimp only
  generalize ((c.hives.map update_hive).getLast?).map (derived_tag_width c.addr_width) = o
  cases o <;> rfl

theorem alookup_append_left {α β : Type} [DecidableEq α] (l l' : List (α × β)) (k : α)
    (ds : β) (h : alookup l k = some ds) : alookup (l ++ l') k = some ds := by
  induction l with
  | nil => simp [alookup] at h
  | cons kv rest ih =>
    by_cases hk : kv.1 = k
    · simp only [alookup, if_pos hk] at h ⊢; exact h
    · simp only [alookup, if_neg hk] at h ⊢; exact ih h

theorem alookup_map_update {α β : Type} [DecidableEq α]
    (l : List (α × β)) (k mem : α) (upd : β → β) (ds : β)
    (h : alookup l k = some ds) :
    alookup (l.map (fun kv => if kv.1 = mem then (kv.1, upd kv.2) else kv)) k =
      some (if k = mem then upd ds else ds) := by
  induction l with
  | nil => simp [alookup] at h
  | cons kv rest ih =>
    by_cases hk : kv.1 = k
    · simp only [alookup, if_pos hk] at h
      by_cases hm : kv.1 = mem
      · have hkm : k = mem := hk ▸ hm
        have hds : kv.2 = ds := Option.some.inj h
        simp only [List.map_cons, if_pos hm, alookup, hk, if_pos, hkm, hds]
      · have hkm : ¬(k = mem) := fun hh => hm (hk.symm ▸ hh)
        simp only [List.map_cons, if_neg hm, alookup, if_pos hk, if_neg hkm, h]
    · simp only [alookup, if_neg hk] at h
      by_cases hm : kv.1 = mem
      · simp only [List.map_cons, if_pos hm, alookup, if_neg hk]
        exact ih h
      · simp only [List.map_cons, if_neg hm, alookup, if_neg hk]
        exact ih h

theorem alookup_append_right_of_none {α β : Type} [DecidableEq α]
    (l : List (α × β)) (k : α) (v : β) (h : alookup l k = Option.none) :
    alookup (l ++ [(k, v)]) k = some v := by
  induction l with
  | nil => simp [alookup]
  | cons kv rest ih =>
    by_cases hk : kv.1 = k
    · simp only [alookup, if_pos hk] at h; exact absurd h (by simp)
    · simp only [alookup, if_neg hk] at h ⊢
      exact ih h

theorem add_mem_desc_mono (st : MemState) (words : Nat) (width : Int) (be : Bool)
    (d : Option String) (so de : Bool) (k : MemKey) (ds : List (Option String))
    (x : Option String) (h : alookup st.mems_desc k = some ds) (hx : x ∈ ds) :
    ∃ ds', alookup (SnitchCluster.add_mem st words width be d so de).mems_desc k =
      some ds' ∧ x ∈ ds' := by
  unfold SnitchCluster.add_mem
  rcases halo : alookup st.mems_desc ⟨width, words, 8, 1, 1, be, so, de⟩ with _ | ds0
  · dsimp only
    rw [halo]
    exact ⟨ds, alookup_append_left _ _ _ _ h, hx⟩
  · dsimp only
    rw [halo]
    refine ⟨if k = ⟨width, words, 8, 1, 1, be, so, de⟩ then ds ++ [d] else ds, ?_, ?_⟩
    · exact alookup_map_update st.mems_desc k _ (fun v => v ++ [d]) ds h
    · by_cases hk : k = (⟨width, words, 8, 1, 1, be, so, de⟩ : MemKey)
      · rw [if_pos hk]; exact List.mem_append_left _ hx
      · rw [if_neg hk]; exact hx

theorem add_mem_desc_added (st : MemState) (words : Nat) (width : Int) (be : Bool)
    (so de : Bool) (d : String) :
    ∃ ds, alookup (SnitchCluster.add_mem st words width be (some d) so de).mems_desc
        ⟨width, words, 8, 1, 1, be, so, de⟩ = some ds ∧ some d ∈ ds := by
  unfold SnitchCluster.add_mem
  rcases halo : alookup st.mems_desc ⟨width, words, 8, 1, 1, be, so, de⟩ with _ | ds0
  · dsimp only
    rw [halo]
    refine ⟨[some d], ?_, by simp⟩
    exact alookup_append_right_of_none st.mems_desc _ _ halo
  · dsimp only
    rw [halo]
    refine ⟨ds0 ++ [some d], ?_, by simp⟩
    have hm := alookup_map_update st.mems_desc ⟨width, words, 8, 1, 1, be, so, de⟩
      ⟨width, words, 8, 1, 1, be, so, de⟩ (fun v => v ++ [some d]) ds0 halo
    simpa using hm

theorem icache_adds_desc_mono (tagw : Int) (hs : List HiveCfg) :
    ∀ (j : Nat) (st : MemState) (k : MemKey) (ds : List (Option String))
      (x : Option String),
    alookup st.mems_desc k = some ds → x ∈ ds →
    ∃ ds', alookup (icache_adds tagw j hs st).mems_desc k = some ds' ∧ x ∈ ds' := by
  induction hs with
  | nil => intro j st k ds x h hx; exact ⟨ds, h, hx⟩
  | cons h0 hs ih =>
    intro j st k ds x h hx
    obtain ⟨ds1, h1, hx1⟩ := add_mem_desc_mono st h0.icache.depth
      (h0.icache.cacheline : Int) false (some ("icache data (hive " ++ toString j ++ ")"))
      true false k ds x h hx
    obtain ⟨ds2, h2, hx2⟩ := add_mem_desc_mono _ h0.icache.depth tagw false
      (some ("icache tag (hive " ++ toString j ++ ")")) true false k ds1 x h1 hx1
    exact ih (j + 1) _ k ds2 x h2 hx2

theorem icache_adds_tag_present (tagw : Int) (hs : List HiveCfg) :
    ∀ (n j : Nat) (st : MemState) (h : HiveCfg), hs.get? n = some h →
    ∃ ds, alookup (icache_adds tagw j hs st).mems_desc
        ⟨tagw, h.icache.depth, 8, 1, 1, false, true, false⟩ = some ds ∧
      some ("icache tag (hive " ++ toString (j + n) ++ ")") ∈ ds := by
  induction hs with
  | nil => intro n j st h hget; simp [List.get?] at hget
  | cons h0 hs ih =>
    intro n j st h hget
    cases n with
    | zero =>
      have hh : h0 = h := by simpa using hget
      subst hh
      obtain ⟨ds, hds, hx⟩ := add_mem_desc_added
        (SnitchCluster.add_mem st h0.icache.depth (h0.icache.cacheline : Int) false
          (some ("icache data (hive " ++ toString j ++ ")")) true false)
        h0.icache.depth tagw false true false ("icache tag (hive " ++ toString j ++ ")")
      obtain ⟨ds', hds', hx'⟩ := icache_adds_desc_mono tagw hs (j + 1) _ _ ds _ hds hx
      exact ⟨ds', hds', hx'⟩
    | succ n =>
      have hget' : hs.get? n = some h := hget
      obtain ⟨ds, hds, hx⟩ := ih n (j + 1) (SnitchCluster.add_mem
        (SnitchCluster.add_mem st h0.icache.depth (h0.icache.cacheline : Int) false
          (some ("icache data (hive " ++ toString j ++ ")")) true false)
        h0.icache.depth tagw false (some ("icache tag (hive " ++ toString j ++ ")"))
        true false) h hget'
      have hidx : j + 1 + n = j + (n + 1) := by omega
      rw [hidx] at hx
      exact ⟨ds, hds, hx⟩

/-- Claim C1 counterexample: in `cfgTwoHives` the two hives have different
icache geometry; hive 0's OWN derived tag width is `39`, yet the tag
descriptor annotated `icache tag (hive 0)` is recorded under width `38`
(the LAST hive's tag width) — there is no width-39 descriptor at all, and
the only descriptor holding hive 0's tag annotation has width 38. -/
theorem icache_tag_descriptor_counterexample :
    ((calc_cache_sizes cfgTwoHives).1.hives.get? 0).map
        (derived_tag_width cfgTwoHives.addr_width) = some 39 ∧
    alookup (cluster_memories cfgTwoHives).mems_desc
        ⟨38, 256, 8, 1, 1, false, true, false⟩ =
      some [some "icache tag (hive 0)", some "icache tag (hive 1)"] ∧
    alookup (cluster_memories cfgTwoHives).mems_desc
        ⟨39, 256, 8, 1, 1, false, true, false⟩ = Option.none ∧
    ((cluster_memories cfgTwoHives).mems_desc.filter
        (fun kv => kv.2.contains (some "icache tag (hive 0)"))).map
        (fun kv => kv.1.width) = [38] := by
  refine ⟨by decide, by decide, by decide, by decide⟩

/-- Claim C1 (amended): the icache-tag descriptor added for hive `i` has
width equal to the tag width derived from the LAST hive's cacheline and
depth — the derivation loop reassigns the single `self.tag_width`
attribute every iteration, so `memory_cfg` uses the last hive's value for
every hive's tag descriptor (which coincides with each hive's own tag
width only when all hives share one icache geometry). -/
theorem icache_tag_descriptor_uses_last_hive_width (c : ClusterCfg) (i : Nat)
    (h hl : HiveCfg)
    (hi : (calc_cache_sizes c).1.hives.get? i = some h)
    (hlast : (calc_cache_sizes c).1.hives.getLast? = some hl) :
    (calc_cache_sizes c).2 = some (derived_tag_width c.addr_width hl) ∧
    ∃ ds, alookup (cluster_memories c).mems_desc
        ⟨derived_tag_width c.addr_width hl, h.icache.depth, 8, 1, 1, false, true, false⟩ =
        some ds ∧
      some ("icache tag (hive " ++ toString i ++ ")") ∈ ds := by
  obtain ⟨hh, ha, ht⟩ := calc_cache_sizes_spec c
  have h2 : (calc_cache_sizes c).2 = some (derived_tag_width c.addr_width hl) := by
    rw [ht, ← hh, hlast]
    rfl
  refine ⟨h2, ?_⟩
  unfold cluster_memories
  dsimp only
  rw [h2]
  obtain ⟨ds, hds, hx⟩ := icache_adds_tag_present
    ((some (derived_tag_width c.addr_width hl)).getD 0)
    ((calc_cache_sizes c).1.hives) i 0
    (SnitchCluster.add_mem MemState.empty (calc_cache_sizes c).1.tcdm.depth
      ((calc_cache_sizes c).1.data_width : Int) true (some "tcdm") true false)
    h hi
  rw [Nat.zero_add] at hx
  exact ⟨ds, hds, hx⟩

/-- Witness for `icache_tag_descriptor_uses_last_hive_width` at
`cfgTwoHives`, hive index 0, with the last hive `⟨⟨8, 1, 256, 256⟩⟩`
(whose derived tag width is 38). -/
theorem icache_tag_descriptor_uses_last_hive_width_witness :
    (calc_cache_sizes cfgTwoHives).1.hives.get? 0 = some ⟨⟨8, 2, 128, 256⟩⟩ ∧
    (calc_cache_sizes cfgTwoHives).1.hives.getLast? = some ⟨⟨8, 1, 256, 256⟩⟩ ∧
    ((calc_cache_sizes cfgTwoHives).2 =
        some (derived_tag_width cfgTwoHives.addr_width ⟨⟨8, 1, 256, 256⟩⟩) ∧
      ∃ ds, alookup (cluster_memories cfgTwoHives).mems_desc
          ⟨derived_tag_width cfgTwoHives.addr_width ⟨⟨8, 1, 256, 256⟩⟩,
           (⟨⟨8, 2, 128, 256⟩⟩ : HiveCfg).icache.depth, 8, 1, 1, false, true, false⟩ =
          some ds ∧
        some ("icache tag (hive " ++ toString 0 ++ ")") ∈ ds) :=
  ⟨by decide, by decide,
    icache_tag_descriptor_uses_last_hive_width cfgTwoHives 0 ⟨⟨8, 2, 128, 256⟩⟩
      ⟨⟨8, 1, 256, 256⟩⟩ (by decide) (by decide)⟩
